import Mathlib

/-!
Verification development for the `unicode-study` library.

Shallow embedding of the Rust sources:
  * `src/helpers.rs`   — `CodeUnit`, `DecodeErr`, bit-level decode/encode helpers.
  * `src/validate.rs`  — UTF-8 validation (`validate`).
  * `src/cp_iter.rs`   — byte-to-codepoint decoding (`CodePointIter`, embedded as `decode`).
  * `src/fix.rs`       — UTF-8 repair (`fix`).
  * `src/normalise.rs` — canonical decomposition, reordering and composition (`to_nfc`).
  * `src/case.rs`      — `to_lowercase` and friends.
  * `src/collation.rs` — collation-element-array construction (`to_collation_elements`).

Machine integers are embedded as `Nat` with explicit `% 256` where the Rust
`u8` arithmetic wraps.  A Rust panic (`unwrap`, slice out of bounds, `todo!()`,
`unreachable!()`) is embedded as `Option.none`.  Loops whose cursor strictly
advances are embedded with an explicit fuel argument that provably dominates
the number of iterations (fuel exhaustion is unreachable for the fuel chosen
by the wrappers and also returns the value used for a panic).

The UCD property tables (`resources/*.json`, loaded by `src/ucd.rs` at run
time) are not part of the sources; the table-driven functions are therefore
parameterised by the table lookups (`ccc`, `dm`, `pc`, …), and concrete
theorems instantiate them with values faithful to the real Unicode data.
-/

/-! ### helpers.rs -/

/-- Embedding of `helpers.rs::CodeUnit`. -/
inductive CodeUnit where
  | singleByte
  | doublePrefix
  | triplePrefix
  | quadPrefix
  | continuation
deriving DecidableEq, Repr

/-- Embedding of `helpers.rs::DecodeErr` (the variant set of `validate.rs`,
where `OverlongEncoding` carries no payload). -/
inductive DecodeErr where
  | incompleteCharacter
  | invalidCodePoint
  | invalidCodeUnit
  | overlongEncoding
  | unexpectedContinuation
deriving DecidableEq, Repr

/-- Embedding of `impl TryFrom<u8> for CodeUnit` (`helpers.rs` lines 31-44);
`none` is the `Err(DecodeErr::InvalidCodeUnit)` case. -/
def CodeUnit.tryFrom (b : Nat) : Option CodeUnit :=
  if b ≤ 0x7F then some .singleByte
  else if b ≤ 0xBF then some .continuation
  else if b ≤ 0xDF then some .doublePrefix
  else if b ≤ 0xEF then some .triplePrefix
  else if b ≤ 0xF7 then some .quadPrefix
  else none

/-- Embedding of `CodeUnit::len` (`helpers.rs` lines 11-19).  The
`Continuation` case is `unreachable!()` in the source and is never hit by the
embedded callers; it is given the value 0 here. -/
def CodeUnit.len : CodeUnit → Nat
  | .singleByte => 1
  | .doublePrefix => 2
  | .triplePrefix => 3
  | .quadPrefix => 4
  | .continuation => 0

/-- Embedding of `helpers.rs::is_valid_codepoint`. -/
def isValidCodepoint (cp : Nat) : Bool :=
  (cp ≤ 0x10FFFF) && (cp < 0xD800 || cp > 0xDFFF)

/-- Embedding of `helpers.rs::decode_double`.  `first << 6` is `u8` arithmetic
and wraps, hence the `% 256`. -/
def decodeDouble (first second : Nat) : Nat :=
  let highByte := (first >>> 2) &&& 0x07
  let lowByte := (((first <<< 6) % 256) &&& 0xC0) ||| (second &&& 0x3F)
  highByte * 256 + lowByte

/-- Embedding of `helpers.rs::decode_triple`. -/
def decodeTriple (first second third : Nat) : Nat :=
  let highByte := (((first <<< 4) % 256) &&& 0xF0) ||| ((second >>> 2) &&& 0x0F)
  let lowByte := (((second <<< 6) % 256) &&& 0xC0) ||| (third &&& 0x3F)
  highByte * 256 + lowByte

/-- Embedding of `helpers.rs::decode_quad`. -/
def decodeQuad (first second third fourth : Nat) : Nat :=
  let highByte := (((first <<< 2) % 256) &&& 0x1C) ||| ((second >>> 4) &&& 0x03)
  let middleByte := (((second <<< 4) % 256) &&& 0xF0) ||| ((third >>> 2) &&& 0x0F)
  let lowByte := (((third <<< 6) % 256) &&& 0xC0) ||| (fourth &&& 0x3F)
  highByte * 65536 + middleByte * 256 + lowByte

/-- Embedding of `helpers.rs::encode` (lines 85-105).  `bytes` is
`code_point.to_be_bytes()` of the `u32`, so `bytes[0]` and `bytes[1]` are the
two MOST significant bytes; the source's 2- and 3-byte branches read exactly
those two bytes.  The `0x10000..=0x10FFFF` branch is `todo!()` and the final
branch `unimplemented!()`; both are embedded as `none`. -/
def encode (codePoint : Nat) : Option (List Nat) :=
  let bytes0 := codePoint / 16777216 % 256
  let bytes1 := codePoint / 65536 % 256
  if codePoint ≤ 0x007F then some [codePoint]
  else if codePoint ≤ 0x07FF then
    let firstByte := 0xC0 ||| ((bytes0 <<< 2) % 256) ||| (bytes1 >>> 6)
    let secondByte := bytes1 ||| (0x80 &&& 0xBF)
    some [firstByte, secondByte]
  else if codePoint ≤ 0xFFFF then
    let firstByte := 0xE0 ||| (bytes0 >>> 4)
    let secondByte := 0x80 ||| (((bytes0 <<< 2) % 256) &&& 0x3C) ||| (bytes1 >>> 6)
    let thirdByte := 0x80 ||| (bytes1 &&& 0x3F)
    some [firstByte, secondByte, thirdByte]
  else none

/-- The spec-level `encode(seq)` applied pointwise via `helpers.rs::encode`,
concatenating the per-codepoint byte sequences; `none` if any single encode
panics. -/
def encodeSeq : List Nat → Option (List Nat)
  | [] => some []
  | cp :: rest => do
    let b ← encode cp
    let r ← encodeSeq rest
    some (b ++ r)

/-! ### validate.rs -/

/-- Embedding of `validate.rs::bytes_remaining`. -/
def bytesRemaining : CodeUnit → Nat
  | .doublePrefix => 1
  | .triplePrefix => 2
  | .quadPrefix => 3
  | _ => 0

/-- Helper for the continuation check `for i in 1..=remaining` of
`validate.rs::validate` (lines 26-31): a byte that fails `CodeUnit::try_from`
propagates `InvalidCodeUnit` via `?`, a non-continuation byte yields
`IncompleteCharacter`. -/
def checkContinuations (input : List Nat) : Nat → Nat → Option DecodeErr
  | _, 0 => none
  | start, count + 1 =>
    match CodeUnit.tryFrom (input.getD start 0) with
    | none => some .invalidCodeUnit
    | some .continuation => checkContinuations input (start + 1) count
    | some _ => some .incompleteCharacter

/-- Decode the multi-byte character starting at `pos` using the decode helper
matching the code unit, as `validate.rs` lines 32-37 do. -/
def decodeAt (input : List Nat) (pos : Nat) : CodeUnit → Nat
  | .doublePrefix => decodeDouble (input.getD pos 0) (input.getD (pos + 1) 0)
  | .triplePrefix => decodeTriple (input.getD pos 0) (input.getD (pos + 1) 0) (input.getD (pos + 2) 0)
  | .quadPrefix => decodeQuad (input.getD pos 0) (input.getD (pos + 1) 0)
      (input.getD (pos + 2) 0) (input.getD (pos + 3) 0)
  | _ => 0

/-- Loop body of `validate.rs::validate`.  `none` is `Ok(())`.  `pos`
strictly increases every iteration, so `input.length + 1` fuel is never
exhausted; the fuel-0 value is arbitrary (chosen as an error). -/
def validateGo (input : List Nat) : Nat → Nat → Option DecodeErr
  | 0, _ => some .incompleteCharacter
  | fuel + 1, pos =>
    if pos < input.length then
      match CodeUnit.tryFrom (input.getD pos 0) with
      | none => some .invalidCodeUnit
      | some .singleByte => validateGo input fuel (pos + 1)
      | some .continuation => some .unexpectedContinuation
      | some cu =>
        let remaining := bytesRemaining cu
        if pos + remaining ≥ input.length then some .incompleteCharacter
        else
          match checkContinuations input (pos + 1) remaining with
          | some e => some e
          | none =>
            let codePoint := decodeAt input pos cu
            if ¬ isValidCodepoint codePoint then some .invalidCodePoint
            else validateGo input fuel (pos + 1 + remaining)
    else none

/-- Embedding of `validate.rs::validate`; `none` is `Ok(())`. -/
def validate (input : List Nat) : Option DecodeErr :=
  validateGo input (input.length + 1) 0

/-! ### The positioned validator used by fix.rs

`fix.rs` destructures `validate` as `Err((DecodeErr, err_pos))` and matches
`DecodeErr::OverlongEncoding(code_point)` with a payload; the `validate` of
`validate.rs` above has neither positions nor a payload and never detects
overlong encodings, so the validator that `fix.rs` was written against is not
among the sources. -/

/-- The positioned error type that `fix.rs` matches on: like `DecodeErr` but
`overlongEncoding` carries the decoded codepoint. -/
inductive DecodeErrP where
  | incompleteCharacter
  | invalidCodePoint
  | invalidCodeUnit
  | overlongEncoding (codePoint : Nat)
  | unexpectedContinuation
deriving DecidableEq, Repr

/-- Positioned variant of `checkContinuations`: `leadPos` is the position of
the leading byte (where `IncompleteCharacter` is reported), a byte outside the
`CodeUnit` ranges reports `InvalidCodeUnit` at its own offset. -/
def checkContinuationsP (input : List Nat) (leadPos : Nat) : Nat → Nat → Option (DecodeErrP × Nat)
  | _, 0 => none
  | start, count + 1 =>
    match CodeUnit.tryFrom (input.getD start 0) with
    | none => some (.invalidCodeUnit, start)
    | some .continuation => checkContinuationsP input leadPos (start + 1) count
    | some _ => some (.incompleteCharacter, leadPos)

/-- Overlong test of spec §4.3: a 2-byte sequence is overlong if the decoded
codepoint is < 0x80, 3-byte if < 0x800, 4-byte if < 0x10000. -/
def isOverlong (cu : CodeUnit) (cp : Nat) : Bool :=
  match cu with
  | .doublePrefix => cp < 0x80
  | .triplePrefix => cp < 0x800
  | .quadPrefix => cp < 0x10000
  | _ => false

/-- Modelled from the spec: the positioned UTF-8 validator that `fix.rs`
calls.  The repository's `validate.rs` returns `Result<(), DecodeErr>` with
neither a byte offset nor an `OverlongEncoding(code_point)` payload and never
checks for overlong encodings, while `fix.rs` pattern-matches
`Err((DecodeErr, err_pos))` and `DecodeErr::OverlongEncoding(code_point)`;
the validator `fix.rs` compiles against is therefore missing from `src/`.
This definition follows spec §4.3 (same scan structure as `validate.rs`, the
error kinds carrying the byte offset of the first offending byte, plus the
spec's overlong detection, checked after codepoint validity as in
`validate.rs`).  Fuel as in `validateGo`. -/
def validateWithPosGo (input : List Nat) : Nat → Nat → Option (DecodeErrP × Nat)
  | 0, pos => some (.incompleteCharacter, pos)
  | fuel + 1, pos =>
    if pos < input.length then
      match CodeUnit.tryFrom (input.getD pos 0) with
      | none => some (.invalidCodeUnit, pos)
      | some .singleByte => validateWithPosGo input fuel (pos + 1)
      | some .continuation => some (.unexpectedContinuation, pos)
      | some cu =>
        let remaining := bytesRemaining cu
        if pos + remaining ≥ input.length then some (.incompleteCharacter, pos)
        else
          match checkContinuationsP input pos (pos + 1) remaining with
          | some e => some e
          | none =>
            let codePoint := decodeAt input pos cu
            if ¬ isValidCodepoint codePoint then some (.invalidCodePoint, pos)
            else if isOverlong cu codePoint then some (.overlongEncoding codePoint, pos)
            else validateWithPosGo input fuel (pos + 1 + remaining)
    else none

/-- Modelled from the spec: wrapper for `validateWithPosGo`, see there. -/
def validateWithPos (input : List Nat) : Option (DecodeErrP × Nat) :=
  validateWithPosGo input (input.length + 1) 0

/-! ### cp_iter.rs -/

/-- Embedding of `CodePointIter::next` (`cp_iter.rs`), iterated to exhaustion.
The source indexes `bytes[pos + k]` without bounds checks and calls
`.unwrap()` on `CodeUnit::try_from`; those panics, and the `unreachable!()`
for a continuation lead byte, are `none`. -/
def decodeGo (input : List Nat) : Nat → Nat → Option (List Nat)
  | 0, _ => none
  | fuel + 1, pos =>
    if pos < input.length then
      match CodeUnit.tryFrom (input.getD pos 0) with
      | none => none
      | some .continuation => none
      | some .singleByte =>
        (input.getD pos 0 :: ·) <$> decodeGo input fuel (pos + 1)
      | some .doublePrefix =>
        if pos + 1 < input.length then
          (decodeDouble (input.getD pos 0) (input.getD (pos + 1) 0) :: ·) <$>
            decodeGo input fuel (pos + 2)
        else none
      | some .triplePrefix =>
        if pos + 2 < input.length then
          (decodeTriple (input.getD pos 0) (input.getD (pos + 1) 0) (input.getD (pos + 2) 0) :: ·) <$>
            decodeGo input fuel (pos + 3)
        else none
      | some .quadPrefix =>
        if pos + 3 < input.length then
          (decodeQuad (input.getD pos 0) (input.getD (pos + 1) 0) (input.getD (pos + 2) 0)
              (input.getD (pos + 3) 0) :: ·) <$>
            decodeGo input fuel (pos + 4)
        else none
    else some []

/-- Collecting the `CodePointIter` over a byte sequence. -/
def decode (input : List Nat) : Option (List Nat) :=
  decodeGo input (input.length + 1) 0

/-! ### fix.rs -/

/-- Embedding of the `REPLACEMENT` constant of `fix.rs`. -/
def replacement : List Nat := [0xEF, 0xBF, 0xBD]

/-- Loop body of `fix.rs::fix` (lines 15-44).  Each iteration re-validates
`input[pos..]`, copies the well-formed prefix up to the error, and branches on
the error kind exactly as the source; Rust panics (the `unwrap()` calls and
the slice `&input[(pos + 1)..(pos + code_unit.len())]` going out of bounds)
are `none`.  `pos` strictly increases each iteration, so `input.length + 1` fuel
is never exhausted. -/
def fixGo (input : List Nat) : Nat → Nat → List Nat → Option (List Nat)
  | 0, _, _ => none
  | fuel + 1, pos, fixed =>
    match validateWithPos (input.drop pos) with
    | none => some (fixed ++ input.drop pos)
    | some (decodeErr, rel) =>
      let errPos := rel + pos
      let fixed := fixed ++ (input.drop pos).take rel
      match decodeErr with
      | .invalidCodeUnit =>
        fixGo input fuel (errPos + 1) (fixed ++ replacement)
      | .incompleteCharacter =>
        match CodeUnit.tryFrom (input.getD errPos 0) with
        | none => none
        | some codeUnit =>
          if errPos + codeUnit.len > input.length then none
          else
            let expectedContinuations := (input.drop (errPos + 1)).take (codeUnit.len - 1)
            match expectedContinuations.findIdx?
                (fun cu => CodeUnit.tryFrom cu ≠ some CodeUnit.continuation) with
            | none => none
            | some idx => fixGo input fuel (errPos + 1 + idx) (fixed ++ replacement)
      | .invalidCodePoint =>
        match CodeUnit.tryFrom (input.getD errPos 0) with
        | none => none
        | some codeUnit => fixGo input fuel (errPos + codeUnit.len) (fixed ++ replacement)
      | .overlongEncoding codePoint =>
        match CodeUnit.tryFrom (input.getD errPos 0), encode codePoint with
        | some codeUnit, some bs => fixGo input fuel (errPos + codeUnit.len) (fixed ++ bs)
        | _, _ => none
      | .unexpectedContinuation =>
        fixGo input fuel (errPos + 1) fixed

/-- Embedding of `fix.rs::fix`: a valid input is returned unchanged, otherwise
the repair loop runs. -/
def fix (input : List Nat) : Option (List Nat) :=
  match validateWithPos input with
  | none => some input
  | some _ => fixGo input (input.length + 1) 0 []

/-! ### normalise.rs -/

/-- Embedding of `normalise.rs::decompose_cp`: recursively replace a codepoint
by its canonical decomposition mapping `dm` until no mapping applies.  The
source recursion terminates because the real decomposition tables are acyclic;
`fuel` bounds the recursion depth and reproduces the source whenever it is at
least the table's nesting depth (a codepoint is returned unexpanded once the
fuel runs out). -/
def decomposeCp (dm : Nat → Option (List Nat)) : Nat → Nat → List Nat
  | 0, cp => [cp]
  | fuel + 1, cp =>
    match dm cp with
    | none => [cp]
    | some d => d.flatMap (decomposeCp dm fuel)

/-- Embedding of the decomposition fold of `normalise.rs::to_nfc`
(lines 53-57): concatenate the recursive decompositions of every codepoint. -/
def decomposeList (dm : Nat → Option (List Nat)) (fuel : Nat) (cps : List Nat) : List Nat :=
  cps.flatMap (decomposeCp dm fuel)

/-- The window/run splitting of `normalise.rs::to_nfc` (lines 60-67): the
first codepoint always opens a run, and a run extends over the following
codepoints while they are not starters (`is_starter` is `combining_class = 0`,
`ucd.rs` lines 120-122).  `cur` is the current run accumulated in reverse. -/
def runsSplitGo (ccc : Nat → Nat) (cur : List Nat) : List Nat → List (List Nat)
  | [] => [cur.reverse]
  | cp :: rest =>
    if ccc cp = 0 then cur.reverse :: runsSplitGo ccc [cp] rest
    else runsSplitGo ccc (cp :: cur) rest

/-- Splitting a decomposed buffer into the composition windows of
`normalise.rs::to_nfc`. -/
def runsSplit (ccc : Nat → Nat) : List Nat → List (List Nat)
  | [] => []
  | cp :: rest => runsSplitGo ccc [cp] rest

/-- The comparison relation of `seq.sort_by(|a, b| combining_class(a).cmp(&combining_class(b)))`
(`normalise.rs` line 69). -/
abbrev cccLe (ccc : Nat → Nat) (a b : Nat) : Prop := ccc a ≤ ccc b

instance (ccc : Nat → Nat) : IsTotal Nat (cccLe ccc) :=
  ⟨fun a b => Nat.le_total (ccc a) (ccc b)⟩

instance (ccc : Nat → Nat) : IsTrans Nat (cccLe ccc) :=
  ⟨fun _ _ _ => Nat.le_trans⟩

/-- Embedding of the run sort of `normalise.rs::to_nfc` (line 69).  Rust's
`sort_by` is a stable sort by the comparator; a stable sort is extensionally
determined by sortedness plus stability, and `List.insertionSort` is the
canonical stable sort, so it is the faithful functional model. -/
def sortRun (ccc : Nat → Nat) (r : List Nat) : List Nat :=
  List.insertionSort (cccLe ccc) r

/-- The inner `for i in 0..seq.len()` of the composition loop of
`normalise.rs::to_nfc` (lines 71-77): find the first index `i` (starting at 0,
so the head itself is also tried) whose codepoint forms a primary composite
with `seq[0]`. -/
def composeFind (pc : Nat → Nat → Option Nat) (s0 : Nat) : List Nat → Nat → Option (Nat × Nat)
  | [], _ => none
  | cp :: rest, i =>
    match pc s0 cp with
    | some composite => some (i, composite)
    | none => composeFind pc s0 rest (i + 1)

/-- One round of the `'outer` composition loop of `normalise.rs::to_nfc`:
on a hit at index `i` the source does `seq[0] = composite; seq.remove(i)`. -/
def composeStep (pc : Nat → Nat → Option Nat) (seq : List Nat) : Option (List Nat) :=
  match seq with
  | [] => none
  | s0 :: _ =>
    match composeFind pc s0 seq 0 with
    | some (i, composite) => some ((seq.set 0 composite).eraseIdx i)
    | none => none

/-- The `'outer: loop` of `normalise.rs::to_nfc` (lines 70-79), repeated until
no composition fires.  Every successful step removes one element, so
`seq.length + 1` fuel is never exhausted. -/
def composeLoop (pc : Nat → Nat → Option Nat) : Nat → List Nat → List Nat
  | 0, seq => seq
  | fuel + 1, seq =>
    match composeStep pc seq with
    | some seq2 => composeLoop pc fuel seq2
    | none => seq

/-- Embedding of `normalise.rs::to_nfc` (lines 52-84): decompose every
codepoint, split the buffer into windows at starters, stably sort each window
by combining class, then run the composition loop on each window and
concatenate.  `ccc`, `dm` and `pc` are the `combining_class`,
`decomposition_mapping` and `primary_composite` lookups of `ucd.rs`, whose
tables live outside the sources; `fuel` is the decomposition depth (see
`decomposeCp`). -/
def toNFC (ccc : Nat → Nat) (dm : Nat → Option (List Nat)) (pc : Nat → Nat → Option Nat)
    (fuel : Nat) (cps : List Nat) : List Nat :=
  ((runsSplit ccc (decomposeList dm fuel cps)).map
    (fun r => composeLoop pc (r.length + 1) (sortRun ccc r))).flatten

/-! ### Concrete UCD table fragments

Values below are the real Unicode data for the codepoints involved:
`ccc(U+0305) = ccc(U+0300) = 230`, `ccc(U+0323) = 220`, `ccc(U+0307) = 230`,
all Hangul jamo and syllables have `ccc = 0`; primary composites
`(U+0041, U+0300) ↦ U+00C0`, `(U+1100, U+1161) ↦ U+AC00`,
`(U+AC00, U+11A8) ↦ U+AC01`; canonical decompositions
`U+AC00 ↦ ⟨U+1100, U+1161⟩`, `U+1E0C ↦ ⟨U+0044, U+0323⟩`. -/

/-- Combining classes for the blocking counterexample (real UCD values). -/
def cccBlk (c : Nat) : Nat := if c = 0x0305 ∨ c = 0x0300 then 230 else 0

/-- No decompositions are involved in the blocking counterexample. -/
def dmBlk (_ : Nat) : Option (List Nat) := none

/-- Primary composites for the blocking counterexample: A + grave = À;
A + overline has no composite (real UCD). -/
def pcBlk (a b : Nat) : Option Nat :=
  if a = 0x0041 ∧ b = 0x0300 then some 0x00C0 else none

/-- Hangul combining classes: all jamo and syllables are starters. -/
def cccHan (_ : Nat) : Nat := 0

/-- Hangul canonical decomposition of U+AC00 (real UCD). -/
def dmHan (c : Nat) : Option (List Nat) :=
  if c = 0xAC00 then some [0x1100, 0x1161] else none

/-- Hangul primary composites (real UCD, per D132). -/
def pcHan (a b : Nat) : Option Nat :=
  if a = 0x1100 ∧ b = 0x1161 then some 0xAC00
  else if a = 0xAC00 ∧ b = 0x11A8 then some 0xAC01
  else none

/-! ### case.rs -/

/-- Embedding of `case.rs::is_final_sigma` (lines 39-63).  The backward scan
`iter().rev().skip(len - sigma_pos)` is the reverse of the first `sigmaPos`
elements; both scans skip case-ignorable codepoints and test whether the next
codepoint is cased.  `casedF` and `ciF` are the `cased` and `case_ignorable`
lookups of `ucd.rs`. -/
def isFinalSigma (casedF ciF : Nat → Bool) (codePoints : List Nat) (sigmaPos : Nat) : Bool :=
  let prevCharCased :=
    match (((codePoints.take sigmaPos).reverse).dropWhile ciF).head? with
    | some cp => casedF cp
    | none => false
  prevCharCased &&
    (let nextCharCased :=
      match ((codePoints.drop (sigmaPos + 1)).dropWhile ciF).head? with
      | some cp => casedF cp
      | none => false
    prevCharCased && !nextCharCased)

/-- Loop body of `case.rs::to_lowercase` (lines 14-32): U+0130 expands to
⟨0x0069, 0x0307⟩, U+03A3 maps to final or non-final small sigma depending on
`is_final_sigma`, and every other codepoint maps through the single-valued
`lowercase_mapping` table (`ucd.rs` lines 157-159, a `HashMap<u32, u32>`),
identity when absent.  `all` is the full input (needed for the sigma
context), `pos` the index of the head of `rest` within it. -/
def toLowercaseGo (casedF ciF : Nat → Bool) (lcMap : Nat → Option Nat)
    (all : List Nat) : List Nat → Nat → List Nat
  | [], _ => []
  | cp :: rest, pos =>
    (if cp = 0x0130 then [105, 775]
     else if cp = 0x03A3 then
       [if isFinalSigma casedF ciF all pos then 0x03C2 else 0x03C3]
     else [(lcMap cp).getD cp]) ++ toLowercaseGo casedF ciF lcMap all rest (pos + 1)

/-- Embedding of `case.rs::to_lowercase`. -/
def toLowercase (casedF ciF : Nat → Bool) (lcMap : Nat → Option Nat)
    (codePoints : List Nat) : List Nat :=
  toLowercaseGo casedF ciF lcMap codePoints codePoints 0

/-! ### trie.rs / collation.rs -/

/-- Embedding of `trie.rs::TrieMatch`: `full` is `Match(T)`, `part` is
`PartialMatch`, `miss` is `NoMatch`. -/
inductive TrieMatch (α : Type) where
  | full (val : α)
  | part
  | miss
deriving DecidableEq, Repr

/-- Modelled from the spec: `ucd.rs` offers no `collation_elements` lookup
(the function and its trie of contractions are missing from `src/ucd.rs`,
though `collation.rs` imports them), so the lookup is modelled from spec
§4.2: the table is the pair list given to `Trie::from_kvs`; `get(key)` is
`Match(value)` when the key is stored (`from_kvs` lets a later pair
overwrite an earlier one, hence the reversed `find?`), `PartialMatch` iff the
key is a strict proper prefix of some stored key, `NoMatch` otherwise. -/
def trieGet {α : Type} [BEq α] (tbl : List (List Nat × α)) (k : List Nat) : TrieMatch α :=
  match tbl.reverse.find? (fun e => e.1 == k) with
  | some e => .full e.2
  | none =>
    if tbl.any (fun e => k.isPrefixOf e.1 && k != e.1) then .part else .miss

/-- Embedding of `ucd.rs`-side `CollationElement` (spec §3: weights are 16-bit
integers, one per level, plus a variable flag). -/
structure CollationElement where
  weights : List Nat
  -- the source field is named `variable`, a reserved word in Lean
  isVariable : Bool
deriving DecidableEq, Repr

/-- Embedding of `collation.rs::VariableWeighting`. -/
inductive VariableWeighting where
  | nonIgnorable
  | blanked
  | shifted
  | shiftTrimmed
deriving DecidableEq, Repr

/-- Embedding of `collation.rs::derive_collation_elements` (lines 157-186).
`ui` is the `unified_ideograph` lookup of `ucd.rs`; the `as u16` casts are
`% 65536`.  `s.first().unwrap()` on an empty `s` is a panic (`none`). -/
def deriveCollationElements (ui : Nat → Bool) (s : List Nat) : Option (List CollationElement) :=
  match s.head? with
  | none => none
  | some cp =>
    let pair : Nat × Nat :=
      if 0x17000 ≤ cp ∧ cp ≤ 0x18AFF then (0xFB00, (cp - 0x17000) ||| 0x8000)
      else if 0x18D00 ≤ cp ∧ cp ≤ 0x18D8F then (0xFB00, (cp - 0x17000) ||| 0x8000)
      else if 0x1B170 ≤ cp ∧ cp ≤ 0x1B2FF then (0xFB01, (cp - 0x1B170) ||| 0x8000)
      else if 0x18B00 ≤ cp ∧ cp ≤ 0x18CFF then (0xFB02, (cp - 0x18B00) ||| 0x8000)
      else if 0x4E00 ≤ cp ∧ cp ≤ 0x9FFF ∧ ui cp then (0xFB40 + (cp >>> 15), (cp &&& 0x7FFF) ||| 0x8000)
      else if 0xF900 ≤ cp ∧ cp ≤ 0xFAFF ∧ ui cp then (0xFB40 + (cp >>> 15), (cp &&& 0x7FFF) ||| 0x8000)
      else if ui cp then (0xFB80 + (cp >>> 15), (cp &&& 0x7FFF) ||| 0x8000)
      else (0xFBC0 + (cp >>> 15), (cp &&& 0x7FFF) ||| 0x8000)
    some [{ weights := [pair.1 % 65536, 0x0020, 0x0002], isVariable := false },
          { weights := [pair.2 % 65536, 0x0000, 0x0000], isVariable := false }]

/-- The `Blanked` pass of `collation.rs::apply_variable_weighting`
(lines 194-206); `ignorable` reads `ce.weights[0]`, which panics on an empty
weight list (`none`), and is only evaluated when `blanking` holds (Rust `&&`
short-circuits). -/
def blankedGo : Bool → List CollationElement → Option (List CollationElement)
  | _, [] => some []
  | blanking, ce :: rest =>
    if ce.isVariable then
      (⟨List.replicate ce.weights.length 0, ce.isVariable⟩ :: ·) <$> blankedGo true rest
    else if blanking then
      match ce.weights.head? with
      | none => none
      | some w =>
        if w = 0 then (⟨List.replicate ce.weights.length 0, ce.isVariable⟩ :: ·) <$> blankedGo blanking rest
        else (ce :: ·) <$> blankedGo false rest
    else (ce :: ·) <$> blankedGo false rest

/-- Embedding of `collation.rs::apply_variable_weighting` (lines 188-210);
`Shifted` and `ShiftTrimmed` are `todo!()` in the source (`none`). -/
def applyVariableWeighting (vw : VariableWeighting) (ces : List CollationElement) :
    Option (List CollationElement) :=
  match vw with
  | .nonIgnorable => some ces
  | .blanked => blankedGo false ces
  | .shifted => none
  | .shiftTrimmed => none

/-- The contiguous-starter extension of `collation.rs::to_collation_elements`
(lines 27-43): extend `s` with `nfd[pos + 1]` while the trie reports `Match`
(removing the consumed codepoint from the buffer); `PartialMatch` is
`todo!()` in the source — a panic, embedded as `none`; `NoMatch` pops and
stops.  Each `Match` iteration shortens `nfd`, so fuel `nfd.length + 1`
never runs out. -/
def contiguousLoop (tbl : List (List Nat × List CollationElement)) (pos : Nat) :
    Nat → List Nat → List Nat → Option (List Nat × List Nat)
  | 0, _, _ => none
  | fuel + 1, nfd, s =>
    match nfd.getD (pos + 1) 0, (nfd.drop (pos + 1)).isEmpty with
    | _, true => some (nfd, s)
    | cp, false =>
      let s2 := s ++ [cp]
      match trieGet tbl s2 with
      | .full _ => contiguousLoop tbl pos fuel (nfd.eraseIdx (pos + 1)) s2
      | .part => none
      | .miss => some (nfd, s)

/-- The contiguous non-starter scan of `collation.rs::to_collation_elements`
(lines 47-81): absorb unblocked non-starters (`ccc > last_cc`) while the trie
reports `Match` or `PartialMatch`, tracking whether the last extension was
only partial (`midPartial`).  Returns `(s, midPartial, offset)`. -/
def contigNonStarterLoop (tbl : List (List Nat × List CollationElement)) (ccc : Nat → Nat)
    (nfd : List Nat) (pos : Nat) :
    Nat → List Nat → Nat → Nat → Bool → Option (List Nat × Bool × Nat)
  | 0, _, _, _, _ => none
  | fuel + 1, s, lastCc, offset, midPartial =>
    match nfd.getD (pos + offset) 0, (nfd.drop (pos + offset)).isEmpty with
    | _, true => some (s, midPartial, offset)
    | cp, false =>
      let cc := ccc cp
      if ¬ (cc = 0) ∧ cc > lastCc then
        let s2 := s ++ [cp]
        match trieGet tbl s2 with
        | .full _ => contigNonStarterLoop tbl ccc nfd pos fuel s2 cc (offset + 1) false
        | .part => contigNonStarterLoop tbl ccc nfd pos fuel s2 cc (offset + 1) true
        | .miss => some (s, midPartial, offset)
      else some (s, midPartial, offset)

/-- The discontiguous scan of `collation.rs::to_collation_elements`
(lines 83-113): for each unblocked non-starter, a `Match` plucks the
codepoint out of the buffer (keeping it in `s`, not advancing `offset`),
`PartialMatch`/`NoMatch` drop it from `s` and advance; a blocked codepoint or
the end of the buffer stops the scan.  Each iteration either shortens `nfd`
or advances `offset`, so `2 * nfd.length + 2` fuel suffices. -/
def discontigLoop (tbl : List (List Nat × List CollationElement)) (ccc : Nat → Nat) (pos : Nat) :
    Nat → List Nat → List Nat → Nat → Nat → Option (List Nat × List Nat)
  | 0, _, _, _, _ => none
  | fuel + 1, nfd, s, lastCc, offset =>
    match nfd.getD (pos + offset) 0, (nfd.drop (pos + offset)).isEmpty with
    | _, true => some (nfd, s)
    | cp, false =>
      let cc := ccc cp
      if ¬ (cc = 0) ∧ cc > lastCc then
        let s2 := s ++ [cp]
        match trieGet tbl s2 with
        | .full _ => discontigLoop tbl ccc pos fuel (nfd.eraseIdx (pos + offset)) s2 cc offset
        | .part => discontigLoop tbl ccc pos fuel nfd s cc (offset + 1)
        | .miss => discontigLoop tbl ccc pos fuel nfd s cc (offset + 1)
      else some (nfd, s)

/-- Outer loop of `collation.rs::to_collation_elements` (lines 22-130): at
each position build the longest substring `s` (contiguous starters, then the
contiguous non-starter scan, then discontiguous matching), advance past it,
fetch its collation elements from the trie or derive them, apply variable
weighting and append.  `pos` strictly increases and the buffer never grows,
so `nfd.length + 1` outer iterations suffice. -/
def tceGo (tbl : List (List Nat × List CollationElement)) (ccc : Nat → Nat) (ui : Nat → Bool)
    (vw : VariableWeighting) :
    Nat → List Nat → Nat → List CollationElement → Option (List CollationElement)
  | 0, _, _, _ => none
  | fuel + 1, nfd, pos, acc =>
    if pos < nfd.length then do
      let s0 := [nfd.getD pos 0]
      -- lines 27-43: only entered when the next codepoint exists and is a starter
      let (nfd1, s1) ←
        match nfd.getD (pos + 1) 0, (nfd.drop (pos + 1)).isEmpty with
        | _, true => some (nfd, s0)
        | cp, false =>
          if ccc cp = 0 then contiguousLoop tbl pos (nfd.length + 1) nfd s0
          else some (nfd, s0)
      -- lines 47-81: only entered when the next codepoint exists and is a non-starter
      let (s2, pos2) ←
        match nfd1.getD (pos + 1) 0, (nfd1.drop (pos + 1)).isEmpty with
        | _, true => some (s1, pos)
        | cp, false =>
          if ¬ (ccc cp = 0) then do
            let (sB, midPartial, offset) ←
              contigNonStarterLoop tbl ccc nfd1 pos (nfd1.length + 2) s1 0 1 false
            some (if midPartial then s1 else sB, if midPartial then pos else pos + offset - 1)
          else some (s1, pos)
      -- lines 83-113
      let (nfd3, s3) ←
        match nfd1.getD (pos2 + 1) 0, (nfd1.drop (pos2 + 1)).isEmpty with
        | _, true => some (nfd1, s2)
        | cp, false =>
          if ¬ (ccc cp = 0) then
            discontigLoop tbl ccc pos2 (2 * nfd1.length + 2) nfd1 s2 0 1
          else some (nfd1, s2)
      let pos3 := pos2 + 1
      -- lines 120-127
      let ces ←
        match trieGet tbl s3 with
        | .full es => some es
        | _ => deriveCollationElements ui s3
      let ces2 ← applyVariableWeighting vw ces
      tceGo tbl ccc ui vw fuel nfd3 pos3 (acc ++ ces2)
    else some acc

/-- Embedding of `collation.rs::to_collation_elements`. -/
def toCollationElements (tbl : List (List Nat × List CollationElement)) (ccc : Nat → Nat)
    (ui : Nat → Bool) (vw : VariableWeighting) (nfd : List Nat) : Option (List CollationElement) :=
  tceGo tbl ccc ui vw (nfd.length + 1) nfd 0 []

/-- A three-starter contraction table: the key ⟨0x41,0x42,0x43⟩ is stored,
its strict prefixes are not. -/
def tblABC : List (List Nat × List CollationElement) :=
  [([0x41, 0x42, 0x43], [{ weights := [0x0100, 0x0020, 0x0002], isVariable := false }])]


/-! ### Stability of the run sort -/

/-- Inserting `x` with `orderedInsert` commutes with filtering on a fixed
combining class `k`: an element passed over by the insertion has a strictly
smaller combining class than `x`, so it cannot share the class `k` with `x`. -/
theorem filter_orderedInsert (ccc : Nat → Nat) (k x : Nat) :
    ∀ M : List Nat,
      (List.orderedInsert (cccLe ccc) x M).filter (fun c => ccc c == k) =
        (x :: M).filter (fun c => ccc c == k) := by
  intro M
  induction M with
  | nil => rfl
  | cons b t ih =>
    by_cases hxb : cccLe ccc x b
    · simp [List.orderedInsert, hxb]
    · have hbx : ccc b < ccc x := Nat.lt_of_not_le hxb
      simp only [List.orderedInsert]
      rw [if_neg hxb]
      by_cases hb : ccc b = k
      · have hx : ¬ ccc x = k := by omega
        simp [List.filter_cons, hb, hx, ih]
      · simp [List.filter_cons, hb, ih]

/-- Stability of `sortRun`: for every combining class `k`, the elements of
class `k` appear in the sorted run in the same order as in the input run. -/
theorem sortRun_filter (ccc : Nat → Nat) (k : Nat) :
    ∀ r : List Nat,
      (sortRun ccc r).filter (fun c => ccc c == k) = r.filter (fun c => ccc c == k) := by
  intro r
  induction r with
  | nil => rfl
  | cons x t ih =>
    simp only [sortRun, List.insertionSort] at *
    rw [filter_orderedInsert ccc k x (List.insertionSort (cccLe ccc) t)]
    simp [List.filter_cons, ih]

/-! ### Auxiliary facts for the claims -/

/-- The `to_lowercase` loop emits exactly one codepoint per input codepoint
as long as U+0130 (the only expanding case) does not occur. -/
theorem toLowercaseGo_length (casedF ciF : Nat → Bool) (lcMap : Nat → Option Nat)
    (all : List Nat) :
    ∀ (rest : List Nat) (pos : Nat), 0x0130 ∉ rest →
      (toLowercaseGo casedF ciF lcMap all rest pos).length = rest.length := by
  intro rest
  induction rest with
  | nil => intro pos _; rfl
  | cons cp t ih =>
    intro pos h
    rw [List.mem_cons, not_or] at h
    have h1 : ¬ cp = 0x0130 := fun hc => h.1 hc.symm
    by_cases h2 : cp = 0x03A3
    · simp [toLowercaseGo, h1, h2, ih (pos + 1) h.2]
    · simp [toLowercaseGo, h1, h2, ih (pos + 1) h.2]

/-- Combining classes for the reordering witness (real UCD values:
`ccc(U+0323) = 220`, `ccc(U+0307) = 230`). -/
def cccW (c : Nat) : Nat := if c = 0x0323 then 220 else if c = 0x0307 then 230 else 0

/-- Canonical decomposition for the reordering witness (real UCD:
`U+1E0C ↦ ⟨U+0044, U+0323⟩`). -/
def dmW (c : Nat) : Option (List Nat) :=
  if c = 0x1E0C then some [0x0044, 0x0323] else none

/-- An empty lowercase-mapping table (every lookup absent, i.e. identity). -/
def lcNone : Nat → Option Nat := fun _ => none

/-- An always-false codepoint predicate (empty `cased` / `case_ignorable` set). -/
def noCp : Nat → Bool := fun _ => false

/-! ### The claims -/

/-- C1 (counterexample): the claim asserts
`repair([0xC0, 0x80]) = [0xEF, 0xBF, 0xBD]`, but `fix` maps the overlong
sequence `[0xC0, 0x80]` to the shortest-form encoding of the decoded
codepoint U+0000, i.e. to `[0x00]`, not to the replacement character — as the
repository's own test `fix.rs::test_fix` asserts. -/
theorem fix_overlong_not_replacement :
    fix [0xC0, 0x80] = some [0x00] ∧ fix [0xC0, 0x80] ≠ some [0xEF, 0xBF, 0xBD] := by
  decide

/-- C1 (amended): `fix` leaves well-formed stretches byte-identical and emits
U+FFFD for invalid codepoints and incomplete characters; however an overlong
encoding is replaced by the shortest-form encoding of its decoded codepoint
(`[0xC0, 0x80] ↦ [0x00]`), and a stray continuation byte is deleted without
any replacement (`[0x80, 0x41] ↦ [0x41]`). -/
theorem fix_repair_behaviour :
    fix [0xC0, 0x80] = some [0x00] ∧
    fix [0x48, 0x69, 0xC2, 0x20, 0x54] = some [0x48, 0x69, 0xEF, 0xBF, 0xBD, 0x20, 0x54] ∧
    fix [0x80, 0x41] = some [0x41] ∧
    fix [0xF0, 0x8D, 0xA0, 0x80] = some [0xEF, 0xBF, 0xBD] ∧
    fix [0x48, 0x69] = some [0x48, 0x69] := by
  decide

/-- C2: the composition loop of `to_nfc` applies no blocking test.  With the
real UCD data for U+0041, U+0305 (COMBINING OVERLINE, ccc 230) and U+0300
(COMBINING GRAVE, ccc 230), the input ⟨A, overline, grave⟩ is already in NFD
and the grave is blocked from the starter by the overline (equal combining
class strictly between them), yet `to_nfc` composes A + grave to U+00C0 and
returns ⟨U+00C0, U+0305⟩ instead of leaving the window unchanged. -/
theorem to_nfc_composes_blocked_candidate :
    toNFC cccBlk dmBlk pcBlk 4 [0x0041, 0x0305, 0x0300] = [0x00C0, 0x0305] ∧
    toNFC cccBlk dmBlk pcBlk 4 [0x0041, 0x0305, 0x0300] ≠ [0x0041, 0x0305, 0x0300] := by
  decide

/-- C3: `to_nfc`'s composition windows stop at the next starter, so the
starter-starter pairs of the Hangul recomposition (L+V and LV+T) are never
candidates: on ⟨U+1100, U+AC00, U+11A8⟩ (with the real UCD data — all jamo
are starters, `U+AC00 ↦ ⟨U+1100, U+1161⟩`, composites L+V and LV+T present)
the function returns the fully decomposed ⟨U+1100, U+1100, U+1161, U+11A8⟩,
not the ⟨U+1100, U+AC01⟩ that the claim (and the repository's own test
`normalise.rs::test_to_nfc`) states. -/
theorem to_nfc_hangul_not_recomposed :
    toNFC cccHan dmHan pcHan 4 [0x1100, 0xAC00, 0x11A8] = [0x1100, 0x1100, 0x1161, 0x11A8] ∧
    toNFC cccHan dmHan pcHan 4 [0x1100, 0xAC00, 0x11A8] ≠ [0x1100, 0xAC01] := by
  decide

/-- C4: `validate` performs no overlong check — the overlong two-byte
encoding `[0xC0, 0x80]` of U+0000 and the overlong three-byte encoding
`[0xE0, 0x82, 0xA3]` of U+00A3 are both accepted (`Ok`), where the claim
requires an `OverlongEncoding` error. -/
theorem validate_accepts_overlong_encoding :
    validate [0xC0, 0x80] = none ∧ validate [0xE0, 0x82, 0xA3] = none := by
  decide

/-- C5: on an input truncated in the middle of a multi-byte character,
`fix` panics — the slice `&input[(pos + 1)..(pos + code_unit.len())]` in the
`IncompleteCharacter` arm runs out of bounds — instead of returning repaired
bytes, so `validate(repair(bytes))` is not `Ok` for every input. -/
theorem fix_truncated_input_panics :
    fix [0xC2] = none ∧ fix [0xE0, 0x80] = none := by
  decide

/-- C7: when extending the contiguous substring with the next starter yields
`PartialMatch`, `to_collation_elements` hits the `todo!()` at
`collation.rs` line 35 and panics instead of continuing to extend: with a
contraction table storing only the three-starter key ⟨0x41, 0x42, 0x43⟩, the
input ⟨0x41, 0x42, 0x43⟩ makes the first extension ⟨0x41, 0x42⟩ a strict
proper prefix of the stored key, and the construction does not complete. -/
theorem to_collation_elements_contiguous_extension_unimplemented :
    toCollationElements tblABC (fun _ => 0) (fun _ => false)
      .nonIgnorable [0x41, 0x42, 0x43] = none := by
  decide

/-- C8: the `encode`/`decode` round trip fails on valid inputs.
`[0xC2, 0xA3]` validates, decodes to ⟨U+00A3⟩, but `encode` reads the two
most-significant (always zero) bytes of the `u32` in its 2- and 3-byte
branches and returns `[0xC0, 0x80]`; and `encode` of any codepoint ≥ 0x10000
is `todo!()`, so inputs with 4-byte characters panic. -/
theorem encode_decode_roundtrip_fails :
    validate [0xC2, 0xA3] = none ∧
    decode [0xC2, 0xA3] = some [0xA3] ∧
    encodeSeq [0xA3] = some [0xC0, 0x80] ∧
    ([0xC0, 0x80] : List Nat) ≠ [0xC2, 0xA3] ∧
    encode 0x10000 = none := by
  decide

/-- C9: in the canonically decomposed buffer, every window produced by the
run splitting of `to_nfc` is, after the run sort, sorted by combining class
(CCC non-decreasing through the run), and the sort is stable: for every
combining class `k`, the elements of class `k` keep their input order. -/
theorem reordered_runs_sorted_and_stable (ccc : Nat → Nat) (dm : Nat → Option (List Nat))
    (fuel : Nat) (cps : List Nat) (r : List Nat) (k : Nat)
    (_hr : r ∈ runsSplit ccc (decomposeList dm fuel cps)) :
    List.Sorted (cccLe ccc) (sortRun ccc r) ∧
      (sortRun ccc r).filter (fun c => ccc c == k) = r.filter (fun c => ccc c == k) :=
  ⟨List.sorted_insertionSort (cccLe ccc) r, sortRun_filter ccc k r⟩

/-- C9 (witness): the decomposition of ⟨U+1E0C, U+0307⟩ yields the single run
⟨U+0044, U+0323, U+0307⟩, which the theorem shows is sorted and stable. -/
theorem reordered_runs_sorted_and_stable_witness :
    ([0x0044, 0x0323, 0x0307] ∈ runsSplit cccW (decomposeList dmW 2 [0x1E0C, 0x0307])) ∧
      (List.Sorted (cccLe cccW) (sortRun cccW [0x0044, 0x0323, 0x0307]) ∧
        (sortRun cccW [0x0044, 0x0323, 0x0307]).filter (fun c => cccW c == 220) =
          [0x0044, 0x0323, 0x0307].filter (fun c => cccW c == 220)) :=
  ⟨by decide,
   reordered_runs_sorted_and_stable cccW dmW 2 [0x1E0C, 0x0307] [0x0044, 0x0323, 0x0307] 220
     (by decide)⟩

/-- C10: for every lowercase table, cased/case-ignorable sets and input
without U+0130, `to_lowercase` returns exactly one codepoint per input
codepoint (the lowercase table is single-valued; the sigma rule picks one of
two single codepoints), so the length is preserved. -/
theorem to_lowercase_preserves_length (casedF ciF : Nat → Bool) (lcMap : Nat → Option Nat)
    (cps : List Nat) (h : 0x0130 ∉ cps) :
    (toLowercase casedF ciF lcMap cps).length = cps.length :=
  toLowercaseGo_length casedF ciF lcMap cps cps 0 h

/-- C10 (witness): the input ⟨U+03A3, U+0041⟩ contains no U+0130 and keeps
its length 2 under `to_lowercase`. -/
theorem to_lowercase_preserves_length_witness :
    (0x0130 ∉ ([0x03A3, 0x0041] : List Nat)) ∧
      (toLowercase noCp noCp lcNone [0x03A3, 0x0041]).length =
        ([0x03A3, 0x0041] : List Nat).length :=
  ⟨by decide, to_lowercase_preserves_length noCp noCp lcNone [0x03A3, 0x0041] (by decide)⟩
